import Mathlib

/-!
Verification development for the `antithetic` package: a shallow embedding of
`antithetic/base.py` (class `AntitheticScalar`), `antithetic/scalars.py`
(classes `Normal`, `InverseCDF`, `Uniform`, `Exponential`) and the standalone
`antithetic.correlation` utility from `antithetic/__init__.py`.

Modelling conventions:
* Python floats are modelled as real numbers `ℝ`.
* The `numpy.random.Generator` owned by an instance is modelled as an infinite
  pre-sampled stream of standard-normal draws `stream : ℕ → ℝ` together with a
  cursor `pos`: `generator.normal(size = k)` returns
  `stream pos, …, stream (pos+k-1)` and advances the cursor by `k`.
  The permutation drawn by `generator.permutation(n)` (used only by the
  `"shuffle"` arrangement) is modelled as a separate pre-sampled supply of
  permutations `permStream` with its own cursor `permPos`.
* Exceptions (`ValueError`, `NotImplementedError`) are modelled with
  `Except String`.
* Python's name mangling is modelled faithfully: inside `class
  AntitheticScalar`, the identifier `self.__have` denotes the attribute
  `_AntitheticScalar__have` (field `have_flag` below, read by
  `get_next_raw_normal`), whereas the string literal `"__have"` passed to
  `super().__setattr__` in `AntitheticScalar.__setattr__` is NOT mangled and
  therefore names a distinct, never-read instance attribute, modelled as the
  field `strayHave`.
* `self.__hold` is initialized to `None` in Python and only ever read after
  `self.__have` has been set to `True` (which always writes it first); we model
  it as a real number with arbitrary initial value `0`.
-/

noncomputable section

namespace Antithetic

/-- String literal `"zip"` from `base.py`. -/
def zipKey : String := "zip"

/-- String literal `"shuffle"` from `base.py`. -/
def shuffleKey : String := "shuffle"

/-- String literal `"concatenate"` from `base.py`. -/
def concatKey : String := "concatenate"

/-- Error message of `ValueError("Invalid correlation: %r" % ...)`. -/
def errInvalidCorrelation : String := "Invalid correlation"

/-- Error message of `ValueError("Unrecognized method: %r" % ...)`. -/
def errUnrecognizedMethod : String := "Unrecognized method"

/-- Error message of `ValueError("Cannot generate %d values." % ...)`. -/
def errCannotGenerate : String := "Cannot generate values"

/-- Error message of `ValueError("Degenerate distribution: low == high")`. -/
def errDegenerate : String := "Degenerate distribution: low == high"

/-- Error message of `ValueError("Invalid scale parameter: %r" % ...)`. -/
def errInvalidScale : String := "Invalid scale parameter"

/-- Error message of the `NotImplementedError` in `Exponential.__init__`. -/
def errDirectExpCorr : String := "Direct values for exponential correlation not yet supported"

/-- A pre-sampled supply of permutations: entry `k` is, for each size `n`, the
permutation of `[0, …, n-1]` that the `k`-th call to
`generator.permutation(n)` would return. -/
def PermSource : Type := ℕ → (n : ℕ) → {l : List ℕ // l.Perm (List.range n)}

/-- State of one `AntitheticScalar` instance (`base.py`, lines 30-74):
`raw_correlation`, the owned `numpy.random.Generator` (as `stream`/`pos` and
`permStream`/`permPos`), the buffer flag `_AntitheticScalar__have`
(`have_flag`), the buffered value `_AntitheticScalar__hold` (`hold`), and the
stray attribute literally named `"__have"` that
`AntitheticScalar.__setattr__` writes (because the string literal is not name
mangled), which no code ever reads (`strayHave`). -/
@[ext]
structure GenState where
  raw_correlation : ℝ
  stream : ℕ → ℝ
  pos : ℕ
  permStream : PermSource
  permPos : ℕ
  have_flag : Bool
  hold : ℝ
  strayHave : Option Bool

/-- The linear combination `np.sum(result * self.mixing_weights)` where
`mixing_weights = [rho, np.sqrt(1.0 - rho**2.0)]` (`base.py`, lines 114-124):
`mix rho x y = rho*x + sqrt(1 - rho^2)*y`. -/
def mix (rho x y : ℝ) : ℝ := rho * x + Real.sqrt (1 - rho ^ 2) * y

/-- `AntitheticScalar.__init__` (`base.py`, lines 33-74): validates
`-1 <= raw_correlation <= 1`, stores it, creates the generator from the seed
(modelled by the caller-supplied streams), and initializes
`_AntitheticScalar__have = False`, `_AntitheticScalar__hold = None`.
No attribute literally named `"__have"` exists after construction. -/
def mkAntitheticScalar (rho : ℝ) (f : ℕ → ℝ) (perm : PermSource) :
    Except String GenState :=
  if ¬(-1 ≤ rho ∧ rho ≤ 1) then .error errInvalidCorrelation
  else .ok { raw_correlation := rho, stream := f, pos := 0, permStream := perm,
             permPos := 0, have_flag := false, hold := 0, strayHave := none }

/-- Assignment `instance.raw_correlation = v`, as executed by
`AntitheticScalar.__setattr__` (`base.py`, lines 90-108): the range check
raises before anything is mutated; otherwise, since `"raw_correlation"` is
always in `distributional_parameter_names`, the hook executes
`super().__setattr__("__have", False)` — which, the string literal not being
name mangled, writes the stray attribute `"__have"` and leaves the real flag
`_AntitheticScalar__have` untouched — and then stores the new value. -/
def setRawCorrelation (s : GenState) (v : ℝ) : Except String GenState :=
  if ¬(-1 ≤ v ∧ v ≤ 1) then .error errInvalidCorrelation
  else .ok { s with strayHave := some false, raw_correlation := v }

/-- `AntitheticScalar.set_seed` (`base.py`, lines 134-147): replaces the
generator wholesale with a fresh one (new streams, cursors at origin) and
executes `self.__have = False`, which (being an identifier, hence mangled)
really does clear the buffer flag. -/
def setSeed (s : GenState) (ns : ℕ → ℝ) (np : PermSource) : GenState :=
  { s with stream := ns, pos := 0, permStream := np, permPos := 0,
           have_flag := false }

/-- `AntitheticScalar.get_next_raw_normal` (`base.py`, lines 149-180): if the
buffer flag is set, clear it and return the held value; otherwise draw two
values from the generator, return the first, and buffer
`np.sum(result * mixing_weights)` with the flag set. -/
def getNextRawNormal (s : GenState) : ℝ × GenState :=
  if s.have_flag then (s.hold, { s with have_flag := false })
  else
    (s.stream s.pos,
     { s with hold := mix s.raw_correlation (s.stream s.pos) (s.stream (s.pos + 1)),
              have_flag := true, pos := s.pos + 2 })

/-- `N` successive calls to `get_next_raw_normal`, collecting the returned
values in order together with the final state. -/
def nextN : ℕ → GenState → List ℝ × GenState
  | 0, s => ([], s)
  | n + 1, s =>
      let r := getNextRawNormal s
      let t := nextN n r.2
      (r.1 :: t.1, t.2)

/-- The rows of `pairs = self.generator.normal(size = (k, 2))` after the
update `pairs[:,1] = np.sum(pairs * self.mixing_weights, axis = 1)`
(`base.py`, lines 234-235): row `i` is the pair
`(stream (p+2i), mix rho (stream (p+2i)) (stream (p+2i+1)))`. -/
def pairRows (rho : ℝ) (f : ℕ → ℝ) (p k : ℕ) : List (ℝ × ℝ) :=
  (List.range k).map fun i => (f (p + 2 * i), mix rho (f (p + 2 * i)) (f (p + 2 * i + 1)))

/-- `pairs.flatten()` (`base.py`, line 246): row-major flattening, so each
pair lands at consecutive positions. -/
def zipArrange (rows : List (ℝ × ℝ)) : List ℝ :=
  (rows.map fun r => [r.1, r.2]).flatten

/-- `pairs.T.flatten()` (`base.py`, line 248): all first members, then all
second members. -/
def concatArrange (rows : List (ℝ × ℝ)) : List ℝ :=
  rows.map Prod.fst ++ rows.map Prod.snd

/-- Return type of `get_sequence_raw_normal`: the `N == 1` early return is a
bare scalar (`base.py`, line 219), every other successful return is a numpy
array, modelled as a list. -/
inductive SeqReturn where
  | scalar (v : ℝ)
  | vector (vs : List ℝ)

/-- The values delivered by a `get_sequence_raw_normal` return, as a list. -/
def seqValues : SeqReturn → List ℝ
  | .scalar v => [v]
  | .vector vs => vs

/-- Whether a `get_sequence_raw_normal` return is an array (as opposed to the
bare scalar of the `N == 1` early return). -/
def SeqReturn.isVector : SeqReturn → Bool
  | .scalar _ => false
  | .vector _ => true

/-- `AntitheticScalar.get_sequence_raw_normal` (`base.py`, lines 182-258).
Checks the method, then `N`; for `N == 1` early-returns the bare scalar
`get_next_raw_normal()`. Otherwise: an available buffered value becomes the
front single; a back single is reserved iff the remaining count is odd; the
even interior count `M` is filled from `M/2` bulk pairs; the flag is set to
`back_single` and, if a back single is needed, one further pair is drawn, its
first member placed last and its second member buffered. Arrangement is by
`"zip"` (row-major flatten), `"concatenate"` (transpose flatten) or
`"shuffle"` (concatenate then permute — all `N` positions when `mix_singles`,
otherwise only the `M` interior positions, offset past the front single). -/
def getSequenceRawNormal (s : GenState) (N : ℕ) (method : String)
    (mix_singles : Bool) : Except String (SeqReturn × GenState) :=
  if method ∉ [zipKey, shuffleKey, concatKey] then .error errUnrecognizedMethod
  else if N = 0 then .error errCannotGenerate
  else if N = 1 then
    let r := getNextRawNormal s
    .ok (.scalar r.1, r.2)
  else
    let fi : ℕ := if s.have_flag then 1 else 0
    let bi : ℕ := (N - fi) % 2
    let M : ℕ := N - fi - bi
    let rows := pairRows s.raw_correlation s.stream s.pos (M / 2)
    let pos₁ := s.pos + M
    let bx := s.stream pos₁
    let bz := mix s.raw_correlation (s.stream pos₁) (s.stream (pos₁ + 1))
    let frontPart : List ℝ := if s.have_flag then [s.hold] else []
    let backPart : List ℝ := if bi = 1 then [bx] else []
    let s₁ : GenState :=
      { s with pos := if bi = 1 then pos₁ + 2 else pos₁,
               have_flag := decide (bi = 1),
               hold := if bi = 1 then bz else s.hold }
    if method = zipKey then
      .ok (.vector (frontPart ++ zipArrange rows ++ backPart), s₁)
    else
      let values := frontPart ++ concatArrange rows ++ backPart
      if method = shuffleKey then
        if mix_singles then
          let idx := (s.permStream s.permPos N).1
          .ok (.vector (idx.map fun i => values.getD i 0),
               { s₁ with permPos := s.permPos + 1 })
        else
          let idx := ((s.permStream s.permPos M).1).map fun j => fi + j
          .ok (.vector (frontPart ++ (idx.map fun i => values.getD i 0) ++ backPart),
               { s₁ with permPos := s.permPos + 1 })
      else
        .ok (.vector values, s₁)

/-- The correlation transform applied by `InverseCDF.__init__` (`scalars.py`,
line 158) and `Uniform.change_correlation` (line 277):
`raw_correlation = 2.0*np.sin(np.pi*correlation/6.0)`. -/
def uniformRawFromPublic (c : ℝ) : ℝ := 2 * Real.sin (Real.pi * c / 6)

/-- The inverse correlation transform of the `Uniform.correlation` property
(`scalars.py`, lines 291-293): `6.0*np.arcsin(0.5*raw_correlation)/np.pi`. -/
def uniformPublicFromRaw (r : ℝ) : ℝ := 6 * Real.arcsin (0.5 * r) / Real.pi

/-- State of a `Normal` instance (`scalars.py`, lines 17-104): the inherited
`AntitheticScalar` state plus the distributional parameters `loc`, `scale`.
Its `distributional_parameter_names` are `["loc", "scale",
"raw_correlation"]`. -/
structure NormalState where
  core : GenState
  loc : ℝ
  scale : ℝ

/-- `Normal.__init__` (`scalars.py`, lines 22-50): validates `scale > 0`,
stores `loc` and `scale`, and defers to `AntitheticScalar.__init__` with the
public correlation used directly as `raw_correlation` (identity transform). -/
def mkNormal (c loc scale : ℝ) (f : ℕ → ℝ) (perm : PermSource) :
    Except String NormalState :=
  if scale ≤ 0 then .error errInvalidScale
  else
    match mkAntitheticScalar c f perm with
    | .error e => .error e
    | .ok g => .ok { core := g, loc := loc, scale := scale }

/-- Assignment `instance.loc = v` on a `Normal`, as executed by
`AntitheticScalar.__setattr__`: `"loc"` is a distributional parameter name,
so the hook executes `super().__setattr__("__have", False)` — writing the
stray unmangled attribute, NOT the flag `_AntitheticScalar__have` — and then
stores the new `loc`. -/
def Normal.setLoc (n : NormalState) (v : ℝ) : NormalState :=
  { n with core := { n.core with strayHave := some false }, loc := v }

/-- Property keys. -/
def meanKey : String := "mean"

/-- Property key of `standard_deviation`. -/
def stdKey : String := "standard_deviation"

/-- Property key of `variance`. -/
def varKey : String := "variance"

/-- Property key of `correlation`. -/
def corrKey : String := "correlation"

/-- Property key of `Exponential.rate`. -/
def rateKey : String := "rate"

/-- The scalar-valued read-only `@property` members defined for `Normal`
(`scalars.py`, lines 52-66): `mean = loc`, `standard_deviation = scale`,
`variance = scale**2.0`, `correlation = raw_correlation`. Any other name has
no such property. -/
def Normal.getProperty (n : NormalState) (name : String) : Option ℝ :=
  if name = meanKey then some n.loc
  else if name = stdKey then some n.scale
  else if name = varKey then some (n.scale ^ 2)
  else if name = corrKey then some n.core.raw_correlation
  else none

/-- State of a `Uniform` instance (`scalars.py`, lines 216-297): the
inherited state plus `low`, `high`; its `distributional_parameter_names` are
`["low", "high", "raw_correlation"]`, and its `transformation` is the fixed
classmethod `Uniform.inverse_CDF`. -/
structure UniformState where
  core : GenState
  low : ℝ
  high : ℝ

/-- `Uniform.__init__` (`scalars.py`, lines 221-258): raises when
`low == high`, otherwise stores `min`/`max` of the two bounds and defers to
`InverseCDF.__init__` (line 158), which converts the public correlation by
`2*sin(pi*c/6)` and passes the result to `AntitheticScalar.__init__` (which
validates it against `[-1, 1]`). -/
def mkUniform (c low high : ℝ) (f : ℕ → ℝ) (perm : PermSource) :
    Except String UniformState :=
  if low = high then .error errDegenerate
  else
    match mkAntitheticScalar (uniformRawFromPublic c) f perm with
    | .error e => .error e
    | .ok g => .ok { core := g, low := min low high, high := max low high }

/-- `Uniform.change_correlation` (`scalars.py`, lines 260-277): validates the
new public correlation, then assigns `self.raw_correlation =
2.0*np.sin(np.pi*new_correlation/6.0)`, which runs through
`AntitheticScalar.__setattr__`. -/
def Uniform.changeCorrelation (u : UniformState) (nc : ℝ) :
    Except String UniformState :=
  if ¬(-1 ≤ nc ∧ nc ≤ 1) then .error errInvalidCorrelation
  else
    match setRawCorrelation u.core (uniformRawFromPublic nc) with
    | .error e => .error e
    | .ok g => .ok { u with core := g }

/-- The scalar-valued read-only `@property` members defined for `Uniform`
(`scalars.py`, lines 279-293): `mean = 0.5*(low + high)`,
`standard_deviation = 0.28867513459481287*(high - low)`,
`variance = (high - low)**2.0/12.0`,
`correlation = 6.0*np.arcsin(0.5*raw_correlation)/np.pi`. -/
def Uniform.getProperty (u : UniformState) (name : String) : Option ℝ :=
  if name = meanKey then some (0.5 * (u.low + u.high))
  else if name = stdKey then some (0.28867513459481287 * (u.high - u.low))
  else if name = varKey then some ((u.high - u.low) ^ 2 / 12)
  else if name = corrKey then some (uniformPublicFromRaw u.core.raw_correlation)
  else none

/-- State of an `Exponential` instance (`scalars.py`, lines 299-383): the
inherited state plus `loc`, `scale`; its `distributional_parameter_names` are
`["loc", "scale", "raw_correlation"]`, and its `transformation` is the fixed
classmethod `Exponential.inverse_CDF`. -/
structure ExponentialState where
  core : GenState
  loc : ℝ
  scale : ℝ

/-- `Exponential.__init__` (`scalars.py`, lines 304-363): raises
`NotImplementedError` when `corr_for_unif` is false; otherwise `rate`, when
supplied, supersedes `scale` via `scale = 1.0/rate`; validates `scale > 0`;
stores `scale`, `loc`; and defers to `InverseCDF.__init__`, which converts
the public correlation by `2*sin(pi*c/6)` and passes it to
`AntitheticScalar.__init__`. -/
def mkExponential (c loc scale : ℝ) (rate : Option ℝ) (corr_for_unif : Bool)
    (f : ℕ → ℝ) (perm : PermSource) : Except String ExponentialState :=
  if !corr_for_unif then .error errDirectExpCorr
  else
    let scale₁ := match rate with
      | some r => 1 / r
      | none => scale
    if scale₁ ≤ 0 then .error errInvalidScale
    else
      match mkAntitheticScalar (uniformRawFromPublic c) f perm with
      | .error e => .error e
      | .ok g => .ok { core := g, loc := loc, scale := scale₁ }

/-- The scalar-valued read-only `@property` members defined for `Exponential`
(`scalars.py`, lines 365-379): `mean = loc + scale`,
`standard_deviation = scale`, `variance = scale**2.0`, `rate = 1.0/scale`.
`Exponential` (including its bases `InverseCDF` and `AntitheticScalar`)
defines NO `correlation` property, so that lookup yields nothing. -/
def Exponential.getProperty (e : ExponentialState) (name : String) : Option ℝ :=
  if name = meanKey then some (e.loc + e.scale)
  else if name = stdKey then some e.scale
  else if name = varKey then some (e.scale ^ 2)
  else if name = rateKey then some (1 / e.scale)
  else none

/-- `x.mean()` of a flattened numpy vector, as used by
`antithetic.correlation` (`__init__.py`, lines 50-51). -/
def vecMean (x : List ℝ) : ℝ := x.sum / x.length

/-- `((x - mx)**2.0).sum()` (`__init__.py`, lines 52-53). -/
def centeredSq (x : List ℝ) : ℝ :=
  (x.map fun v => (v - vecMean x) ^ 2).sum

/-- The unguarded denominator `np_sqrt(s2x*s2y)` of `antithetic.correlation`
(`__init__.py`, line 54). -/
def corrDenominator (x y : List ℝ) : ℝ :=
  Real.sqrt (centeredSq x * centeredSq y)

/-- Error message of `ValueError("Vectors must have the same size.")`. -/
def errSizeMismatch : String := "Vectors must have the same size"

/-- The standalone utility `antithetic.correlation` (`__init__.py`, lines
36-54): flattens both inputs (our inputs are already flat lists), raises when
the sizes differ, and otherwise returns
`((x - mx)*(y - my)).sum() / np_sqrt(s2x*s2y)` — the final division is not
guarded against a zero denominator. -/
def correlationFn (x y : List ℝ) : Except String ℝ :=
  if x.length ≠ y.length then .error errSizeMismatch
  else .ok ((List.zipWith (fun a b => (a - vecMean x) * (b - vecMean y)) x y).sum
            / corrDenominator x y)

/-! ### Concrete example data -/

/-- A concrete stream of draws: the `n`-th standard-normal draw is the real
number `n` (the distributional content of the source is irrelevant to the
state machine; any realized stream is a possible one). -/
def natStream : ℕ → ℝ := fun n => (n : ℝ)

/-- A concrete permutation supply: every call returns the identity
permutation. -/
def idPerm : PermSource := fun _ n => ⟨List.range n, List.Perm.refl _⟩

/-- A freshly constructed `AntitheticScalar` state with `raw_correlation = 0`
(so that the mixing step is `mix 0 x y = y`). -/
def demoGen : GenState :=
  { raw_correlation := 0, stream := natStream, pos := 0, permStream := idPerm,
    permPos := 0, have_flag := false, hold := 0, strayHave := none }

/-- `demoGen` with a buffered value `5` waiting to be delivered. -/
def demoGenBuf : GenState := { demoGen with have_flag := true, hold := 5 }

/-- A freshly constructed `Normal(correlation = 0, loc = 0, scale = 1)`. -/
def demoNormal : NormalState := { core := demoGen, loc := 0, scale := 1 }

/-- `demoNormal` after one `get_next_raw_normal()` call: the call returned
`natStream 0 = 0` and buffered `mix 0 0 1 = 1` with the flag set. -/
def demoNormalDrawn : NormalState :=
  { demoNormal with core := (getNextRawNormal demoNormal.core).2 }

/-! ### Field-preservation lemmas -/

lemma getNextRawNormal_fields (s : GenState) :
    (getNextRawNormal s).2.raw_correlation = s.raw_correlation ∧
    (getNextRawNormal s).2.stream = s.stream ∧
    (getNextRawNormal s).2.permStream = s.permStream ∧
    (getNextRawNormal s).2.permPos = s.permPos ∧
    (getNextRawNormal s).2.strayHave = s.strayHave := by
  cases hb : s.have_flag <;> simp [getNextRawNormal, hb]

lemma nextN_fields (N : ℕ) (s : GenState) :
    (nextN N s).2.raw_correlation = s.raw_correlation ∧
    (nextN N s).2.stream = s.stream ∧
    (nextN N s).2.permStream = s.permStream ∧
    (nextN N s).2.permPos = s.permPos ∧
    (nextN N s).2.strayHave = s.strayHave := by
  induction N generalizing s with
  | zero => exact ⟨rfl, rfl, rfl, rfl, rfl⟩
  | succ n ih =>
      have hg := getNextRawNormal_fields s
      have hi := ih (getNextRawNormal s).2
      simp only [nextN]
      exact ⟨hi.1.trans hg.1, hi.2.1.trans hg.2.1, hi.2.2.1.trans hg.2.2.1,
             hi.2.2.2.1.trans hg.2.2.2.1, hi.2.2.2.2.trans hg.2.2.2.2⟩

set_option maxHeartbeats 1600000 in
lemma getSequenceRawNormal_ok_fields {s : GenState} {N : ℕ} {m : String}
    {ms : Bool} {r : SeqReturn} {s' : GenState}
    (h : getSequenceRawNormal s N m ms = .ok (r, s')) :
    s'.raw_correlation = s.raw_correlation ∧ s'.stream = s.stream ∧
    s'.permStream = s.permStream ∧ s'.strayHave = s.strayHave := by
  have hg := getNextRawNormal_fields s
  simp only [getSequenceRawNormal] at h
  split at h
  · cases h
  split at h
  · cases h
  split at h
  · simp only [Except.ok.injEq, Prod.mk.injEq] at h
    obtain ⟨-, rfl⟩ := h
    exact ⟨hg.1, hg.2.1, hg.2.2.1, hg.2.2.2.2⟩
  split at h
  · simp only [Except.ok.injEq, Prod.mk.injEq] at h
    obtain ⟨-, rfl⟩ := h
    exact ⟨rfl, rfl, rfl, rfl⟩
  split at h
  · split at h
    all_goals
      simp only [Except.ok.injEq, Prod.mk.injEq] at h
    all_goals
      obtain ⟨-, rfl⟩ := h
    all_goals
      exact ⟨rfl, rfl, rfl, rfl⟩
  · simp only [Except.ok.injEq, Prod.mk.injEq] at h
    obtain ⟨-, rfl⟩ := h
    exact ⟨rfl, rfl, rfl, rfl⟩

/-! ### Reachability of generator states -/

/-- The states an `AntitheticScalar` instance can reach through its public
operations: successful construction, `get_next_raw_normal`, a successful
`get_sequence_raw_normal`, `set_seed`, and a successful (validated)
assignment to `raw_correlation`. -/
inductive Reachable : GenState → Prop where
  | construct (rho : ℝ) (f : ℕ → ℝ) (perm : PermSource) (s : GenState)
      (h : mkAntitheticScalar rho f perm = .ok s) : Reachable s
  | next (s : GenState) (h : Reachable s) : Reachable (getNextRawNormal s).2
  | sequence (s : GenState) (N : ℕ) (m : String) (ms : Bool) (r : SeqReturn)
      (s' : GenState) (h : Reachable s)
      (hs : getSequenceRawNormal s N m ms = .ok (r, s')) : Reachable s'
  | reseed (s : GenState) (ns : ℕ → ℝ) (np : PermSource) (h : Reachable s) :
      Reachable (setSeed s ns np)
  | correlationUpdate (s : GenState) (v : ℝ) (s' : GenState) (h : Reachable s)
      (hs : setRawCorrelation s v = .ok s') : Reachable s'

/-! ### Claim theorems -/

/-- Claim C5: on every call to `get_next_raw_normal` on a valid state, if a
value is buffered it is returned with the flag cleared and no draw taken from
the random source (the state is unchanged except for the flag, in particular
the stream cursor does not move); otherwise two independent draws `(x, y)`
are taken, `z = rho*x + sqrt(1 - rho^2)*y` is stored as the buffered value
with the flag set, and `x` is returned. The call is a total function: it
never fails. -/
theorem C5_get_next_algorithm (s : GenState) :
    (s.have_flag = true →
      getNextRawNormal s = (s.hold, { s with have_flag := false })) ∧
    (s.have_flag = false →
      getNextRawNormal s
        = (s.stream s.pos,
           { s with
               hold := s.raw_correlation * s.stream s.pos
                 + Real.sqrt (1 - s.raw_correlation ^ 2) * s.stream (s.pos + 1),
               have_flag := true, pos := s.pos + 2 })) := by
  constructor <;> intro h <;> simp [getNextRawNormal, h, mix]

/-- Witness for C5: the two branches of the algorithm, evaluated on the
concrete buffered state `demoGenBuf` and the concrete fresh state `demoGen`. -/
theorem C5_witness :
    (demoGenBuf.have_flag = true ∧
      getNextRawNormal demoGenBuf = (demoGenBuf.hold, { demoGenBuf with have_flag := false })) ∧
    (demoGen.have_flag = false ∧
      getNextRawNormal demoGen
        = (demoGen.stream demoGen.pos,
           { demoGen with
               hold := demoGen.raw_correlation * demoGen.stream demoGen.pos
                 + Real.sqrt (1 - demoGen.raw_correlation ^ 2) * demoGen.stream (demoGen.pos + 1),
               have_flag := true, pos := demoGen.pos + 2 })) :=
  ⟨⟨rfl, (C5_get_next_algorithm demoGenBuf).1 rfl⟩,
   ⟨rfl, (C5_get_next_algorithm demoGen).2 rfl⟩⟩

/-- Claim C6: for every state and every reseed (the new pseudo-random source
being any stream whatsoever, the model of `default_rng(seed)` for an
arbitrary seed including `None`), `set_seed` replaces the source wholesale
(new stream, cursor at the origin) and clears the buffer flag; the call to
`get_next_raw_normal` immediately after reseeding returns the first draw of
the new source, and its outcome is entirely independent of the pre-reseed
buffer contents (flag and held value). -/
theorem C6_set_seed_clears_buffer (s : GenState) (ns : ℕ → ℝ) (np : PermSource) :
    (setSeed s ns np).have_flag = false ∧
    (setSeed s ns np).stream = ns ∧
    (setSeed s ns np).pos = 0 ∧
    (getNextRawNormal (setSeed s ns np)).1 = ns 0 ∧
    (∀ (b : Bool) (h : ℝ),
      getNextRawNormal (setSeed { s with have_flag := b, hold := h } ns np)
        = getNextRawNormal (setSeed s ns np)) :=
  ⟨rfl, rfl, rfl, rfl, fun _ _ => rfl⟩

/-- Claim C1 (code bug): the source intends every assignment to a
distributional parameter (or to `raw_correlation`) to force the buffer flag
to `False` — `AntitheticScalar.__setattr__` executes
`super().__setattr__("__have", False)` and the docstring of `param_names`
says the flag "is forced to False" — but the string literal `"__have"` is not
subject to Python name mangling, while the flag that `get_next_raw_normal`
reads is the attribute `_AntitheticScalar__have`. Evaluated at the failing
input: after one draw on `Normal(correlation = 0)` the buffer holds `1` with
the flag set; assigning `loc = 5` leaves the flag set, and the next
`get_next_raw_normal` call returns the stale buffered value `1`; likewise a
valid assignment to `raw_correlation` itself leaves the flag set. -/
theorem C1_setattr_does_not_clear_buffer :
    demoNormalDrawn.core.have_flag = true ∧
    (Normal.setLoc demoNormalDrawn 5).core.have_flag = true ∧
    (getNextRawNormal (Normal.setLoc demoNormalDrawn 5).core).1
      = demoNormalDrawn.core.hold ∧
    demoNormalDrawn.core.hold = 1 ∧
    (setRawCorrelation demoNormalDrawn.core (1/2)).map (fun g => g.have_flag)
      = .ok true := by
  refine ⟨rfl, rfl, rfl, ?_, ?_⟩
  · show mix 0 (natStream 0) (natStream 1) = 1
    simp [mix, natStream]
  · show (setRawCorrelation demoNormalDrawn.core (1/2)).map (fun g => g.have_flag) = .ok true
    rw [setRawCorrelation, if_neg (by norm_num)]
    rfl

/-- Claim C8: in every reachable generator state `raw_correlation` lies in
`[-1, 1]`; construction with a correlation outside `[-1, 1]` fails with the
invalid-argument error; and every later assignment to `raw_correlation` is
validated, an out-of-range value failing with the same error before anything
is mutated (the exception propagates before the assignment, so the state the
caller holds is the unchanged original). -/
theorem C8_raw_correlation_invariant :
    (∀ s : GenState, Reachable s → -1 ≤ s.raw_correlation ∧ s.raw_correlation ≤ 1) ∧
    (∀ (rho : ℝ) (f : ℕ → ℝ) (perm : PermSource), ¬(-1 ≤ rho ∧ rho ≤ 1) →
      mkAntitheticScalar rho f perm = .error errInvalidCorrelation) ∧
    (∀ (s : GenState) (v : ℝ), ¬(-1 ≤ v ∧ v ≤ 1) →
      setRawCorrelation s v = .error errInvalidCorrelation) := by
  refine ⟨?_, ?_, ?_⟩
  · intro s hs
    induction hs with
    | construct rho f perm s h =>
        unfold mkAntitheticScalar at h
        split at h
        · cases h
        · rename_i hcond
          rw [not_not] at hcond
          simp only [Except.ok.injEq] at h
          subst h
          exact hcond
    | next s h ih => rw [(getNextRawNormal_fields s).1]; exact ih
    | sequence s N m ms r s' h hs ih =>
        rw [(getSequenceRawNormal_ok_fields hs).1]; exact ih
    | reseed s ns np h ih => exact ih
    | correlationUpdate s v s' h hs ih =>
        unfold setRawCorrelation at hs
        split at hs
        · cases hs
        · rename_i hcond
          rw [not_not] at hcond
          simp only [Except.ok.injEq] at hs
          subst hs
          exact hcond
  · intro rho f perm hout
    unfold mkAntitheticScalar
    rw [if_pos hout]
  · intro s v hout
    unfold setRawCorrelation
    rw [if_pos hout]

/-- Witness for C8: the freshly constructed `demoGen` is reachable and its
`raw_correlation` obeys the invariant; construction with correlation `2` and
assignment of `2` both fail with the invalid-argument error. -/
theorem C8_witness :
    Reachable demoGen ∧
    (-1 ≤ demoGen.raw_correlation ∧ demoGen.raw_correlation ≤ 1) ∧
    ¬(-1 ≤ (2 : ℝ) ∧ (2 : ℝ) ≤ 1) ∧
    mkAntitheticScalar 2 natStream idPerm = .error errInvalidCorrelation ∧
    setRawCorrelation demoGen 2 = .error errInvalidCorrelation := by
  have hreach : Reachable demoGen :=
    .construct 0 natStream idPerm demoGen
      (by unfold mkAntitheticScalar; rw [if_neg (by norm_num)]; rfl)
  have h2 : ¬(-1 ≤ (2 : ℝ) ∧ (2 : ℝ) ≤ 1) := by norm_num
  exact ⟨hreach, C8_raw_correlation_invariant.1 demoGen hreach, h2,
         C8_raw_correlation_invariant.2.1 2 natStream idPerm h2,
         C8_raw_correlation_invariant.2.2 demoGen 2 h2⟩

/-- Claim C7: for every `r` in `[-1, 1]`, composing the Uniform family
public-to-raw transform `raw = 2*sin(pi*r/6)` (the one applied by
`InverseCDF.__init__` and `Uniform.change_correlation`) with the
raw-to-public transform `public = (6/pi)*arcsin(raw/2)` (the
`Uniform.correlation` property) yields `r` again: over exact real arithmetic
the two transforms are exact inverses on `[-1, 1]`. -/
theorem C7_uniform_correlation_roundtrip (r : ℝ) (h₁ : -1 ≤ r) (h₂ : r ≤ 1) :
    uniformPublicFromRaw (uniformRawFromPublic r) = r := by
  have hπ := Real.pi_pos
  have hπ0 : Real.pi ≠ 0 := Real.pi_ne_zero
  unfold uniformRawFromPublic uniformPublicFromRaw
  have harg : (0.5 : ℝ) * (2 * Real.sin (Real.pi * r / 6)) = Real.sin (Real.pi * r / 6) := by
    ring
  have hl : -(Real.pi / 2) ≤ Real.pi * r / 6 := by nlinarith
  have hr : Real.pi * r / 6 ≤ Real.pi / 2 := by nlinarith
  rw [harg, Real.arcsin_sin hl hr]
  field_simp

/-- Witness for C7: the round-trip evaluated at the concrete public
correlation `r = 0`. -/
theorem C7_witness :
    (-1 ≤ (0 : ℝ)) ∧ ((0 : ℝ) ≤ 1) ∧
    uniformPublicFromRaw (uniformRawFromPublic 0) = 0 :=
  ⟨by norm_num, by norm_num,
   C7_uniform_correlation_roundtrip 0 (by norm_num) (by norm_num)⟩

/-- A freshly constructed `Uniform(correlation = 0, low = 0, high = 1)`. -/
def demoUniform : UniformState := { core := demoGen, low := 0, high := 1 }

/-- A freshly constructed `Exponential(correlation = 0, loc = 0, scale = 1)`. -/
def demoExponential : ExponentialState := { core := demoGen, loc := 0, scale := 1 }

/-- Claim C2 (amended): on every successfully constructed instance, `Normal`
and `Uniform` expose all four read-only derived properties `mean`,
`standard_deviation`, `variance` and `correlation` (public-space), each
returning the value derived from the stored parameters; `Exponential`
exposes `mean`, `standard_deviation` and `variance` (and `rate`) but defines
no `correlation` property, so that lookup yields nothing. -/
theorem C2_derived_properties :
    (∀ (c loc scale : ℝ) (f : ℕ → ℝ) (pp : PermSource) (n : NormalState),
      mkNormal c loc scale f pp = .ok n →
        Normal.getProperty n meanKey = some n.loc ∧
        Normal.getProperty n stdKey = some n.scale ∧
        Normal.getProperty n varKey = some (n.scale ^ 2) ∧
        Normal.getProperty n corrKey = some n.core.raw_correlation) ∧
    (∀ (c low high : ℝ) (f : ℕ → ℝ) (pp : PermSource) (u : UniformState),
      mkUniform c low high f pp = .ok u →
        Uniform.getProperty u meanKey = some (0.5 * (u.low + u.high)) ∧
        Uniform.getProperty u stdKey = some (0.28867513459481287 * (u.high - u.low)) ∧
        Uniform.getProperty u varKey = some ((u.high - u.low) ^ 2 / 12) ∧
        Uniform.getProperty u corrKey = some (uniformPublicFromRaw u.core.raw_correlation)) ∧
    (∀ (c loc scale : ℝ) (rate : Option ℝ) (cfu : Bool) (f : ℕ → ℝ)
        (pp : PermSource) (e : ExponentialState),
      mkExponential c loc scale rate cfu f pp = .ok e →
        Exponential.getProperty e meanKey = some (e.loc + e.scale) ∧
        Exponential.getProperty e stdKey = some e.scale ∧
        Exponential.getProperty e varKey = some (e.scale ^ 2) ∧
        Exponential.getProperty e rateKey = some (1 / e.scale) ∧
        Exponential.getProperty e corrKey = none) := by
  refine ⟨?_, ?_, ?_⟩
  · intro c loc scale f pp n _
    exact ⟨rfl, rfl, rfl, rfl⟩
  · intro c low high f pp u _
    exact ⟨rfl, rfl, rfl, rfl⟩
  · intro c loc scale rate cfu f pp e _
    exact ⟨rfl, rfl, rfl, rfl, rfl⟩

/-- Counterexample to Claim C2 as stated: on the successfully constructed
instance `Exponential(correlation = 0, loc = 0, scale = 1)`, reading the
`correlation` property does not succeed — no such property exists anywhere in
the class hierarchy of `Exponential`. -/
theorem C2_counterexample :
    (mkExponential 0 0 1 none true natStream idPerm).map
      (fun e => Exponential.getProperty e corrKey) = .ok none := by
  have h0 : uniformRawFromPublic 0 = 0 := by simp [uniformRawFromPublic]
  unfold mkExponential
  rw [h0]
  norm_num [mkAntitheticScalar, Except.map]
  rfl

/-- Witness for C2: the amended property statement applied to the three
concretely constructed instances. -/
theorem C2_witness :
    (mkNormal 0 0 1 natStream idPerm = .ok demoNormal ∧
      Normal.getProperty demoNormal corrKey = some demoNormal.core.raw_correlation) ∧
    (mkUniform 0 0 1 natStream idPerm = .ok demoUniform ∧
      Uniform.getProperty demoUniform corrKey
        = some (uniformPublicFromRaw demoUniform.core.raw_correlation)) ∧
    (mkExponential 0 0 1 none true natStream idPerm = .ok demoExponential ∧
      Exponential.getProperty demoExponential corrKey = none) := by
  have h0 : uniformRawFromPublic 0 = 0 := by simp [uniformRawFromPublic]
  have hn : mkNormal 0 0 1 natStream idPerm = .ok demoNormal := by
    unfold mkNormal mkAntitheticScalar
    rw [if_neg (by norm_num), if_neg (by norm_num)]
    rfl
  have hu : mkUniform 0 0 1 natStream idPerm = .ok demoUniform := by
    unfold mkUniform
    rw [h0]
    unfold mkAntitheticScalar
    rw [if_neg (by norm_num), if_neg (by norm_num)]
    simp only [Except.ok.injEq]
    unfold demoUniform demoGen
    congr 1 <;> norm_num
  have he : mkExponential 0 0 1 none true natStream idPerm = .ok demoExponential := by
    unfold mkExponential
    rw [h0]
    norm_num [mkAntitheticScalar]
    rfl
  exact ⟨⟨hn, (C2_derived_properties.1 0 0 1 natStream idPerm demoNormal hn).2.2.2⟩,
         ⟨hu, (C2_derived_properties.2.1 0 0 1 natStream idPerm demoUniform hu).2.2.2⟩,
         ⟨he, (C2_derived_properties.2.2 0 0 1 none true natStream idPerm demoExponential he).2.2.2.2⟩⟩

lemma uniformRawFromPublic_mem (c : ℝ) (h₁ : -1 ≤ c) (h₂ : c ≤ 1) :
    -1 ≤ uniformRawFromPublic c ∧ uniformRawFromPublic c ≤ 1 := by
  have hπ := Real.pi_pos
  have hmono := Real.strictMonoOn_sin.monotoneOn
  have hm1 : Real.pi * c / 6 ∈ Set.Icc (-(Real.pi / 2)) (Real.pi / 2) :=
    ⟨by nlinarith, by nlinarith⟩
  have hp6 : Real.pi / 6 ∈ Set.Icc (-(Real.pi / 2)) (Real.pi / 2) :=
    ⟨by nlinarith, by nlinarith⟩
  have hn6 : -(Real.pi / 6) ∈ Set.Icc (-(Real.pi / 2)) (Real.pi / 2) :=
    ⟨by nlinarith, by nlinarith⟩
  have hub : Real.sin (Real.pi * c / 6) ≤ Real.sin (Real.pi / 6) :=
    hmono hm1 hp6 (by nlinarith)
  have hlb : Real.sin (-(Real.pi / 6)) ≤ Real.sin (Real.pi * c / 6) :=
    hmono hn6 hm1 (by nlinarith)
  rw [Real.sin_pi_div_six] at hub
  rw [Real.sin_neg, Real.sin_pi_div_six] at hlb
  unfold uniformRawFromPublic
  constructor <;> nlinarith

/-- The `Uniform` constructed by `Uniform(correlation = 0, low = 1,
high = 0)`: the bounds arrive swapped and are stored sorted. -/
def demoUniformSwapped : UniformState := { core := demoGen, low := 0, high := 1 }

/-- Claim C9 (amended): `Uniform(correlation, low, high)` fails with an
invalid-argument error iff `low == high` or the transformed raw correlation
`2*sin(pi*correlation/6)` falls outside `[-1, 1]`; for every public
correlation in `[-1, 1]` the latter cannot happen, so there failure occurs
exactly when `low == high`. When `low > high` the two values are swapped
silently, and every successfully constructed instance stores
`low = min`, `high = max` of the arguments, hence `low < high`. -/
theorem C9_uniform_construction (c low high : ℝ) (f : ℕ → ℝ) (pp : PermSource) :
    (∀ u : UniformState, mkUniform c low high f pp = .ok u →
      u.low = min low high ∧ u.high = max low high ∧ u.low < u.high) ∧
    ((∃ u, mkUniform c low high f pp = .ok u) ↔
      (low ≠ high ∧ -1 ≤ uniformRawFromPublic c ∧ uniformRawFromPublic c ≤ 1)) ∧
    (-1 ≤ c → c ≤ 1 →
      ((∃ u, mkUniform c low high f pp = .ok u) ↔ low ≠ high)) := by
  have hchar : ∀ u : UniformState, mkUniform c low high f pp = .ok u →
      u.low = min low high ∧ u.high = max low high := by
    intro u hu
    unfold mkUniform mkAntitheticScalar at hu
    split at hu
    · cases hu
    · split at hu
      · cases hu
      · simp only [Except.ok.injEq] at hu
        subst hu
        exact ⟨rfl, rfl⟩
  have hiff : (∃ u, mkUniform c low high f pp = .ok u) ↔
      (low ≠ high ∧ -1 ≤ uniformRawFromPublic c ∧ uniformRawFromPublic c ≤ 1) := by
    constructor
    · rintro ⟨u, hu⟩
      unfold mkUniform mkAntitheticScalar at hu
      split at hu
      · cases hu
      · rename_i hlh
        split at hu
        · cases hu
        · rename_i hraw
          split at hraw
          · cases hraw
          · rename_i hcond
            rw [not_not] at hcond
            exact ⟨hlh, hcond⟩
    · rintro ⟨hlh, hraw⟩
      refine ⟨{ core := { raw_correlation := uniformRawFromPublic c, stream := f,
                          pos := 0, permStream := pp, permPos := 0,
                          have_flag := false, hold := 0, strayHave := none },
                low := min low high, high := max low high }, ?_⟩
      unfold mkUniform mkAntitheticScalar
      rw [if_neg hlh, if_neg (not_not_intro ⟨hraw.1, hraw.2⟩)]
  refine ⟨?_, hiff, ?_⟩
  · intro u hu
    obtain ⟨hl, hh⟩ := hchar u hu
    have hne : low ≠ high := by
      rcases hiff.1 ⟨u, hu⟩ with ⟨hne, -⟩
      exact hne
    refine ⟨hl, hh, ?_⟩
    rw [hl, hh]
    rcases lt_or_gt_of_ne hne with hlt | hgt
    · rw [min_eq_left hlt.le, max_eq_right hlt.le]
      exact hlt
    · rw [min_eq_right hgt.le, max_eq_left hgt.le]
      exact hgt
  · intro hc1 hc2
    rw [hiff]
    have hmem := uniformRawFromPublic_mem c hc1 hc2
    exact ⟨fun h => h.1, fun h => ⟨h, hmem.1, hmem.2⟩⟩

/-- Counterexample to Claim C9 as stated: construction can also fail when
`low != high` — `Uniform(correlation = 2, low = 0, high = 1)` raises the
invalid-correlation error, because `2*sin(pi*2/6) = sqrt(3)` falls outside
`[-1, 1]`. -/
theorem C9_counterexample :
    (0 : ℝ) ≠ 1 ∧
    mkUniform 2 0 1 natStream idPerm = .error errInvalidCorrelation := by
  have harg : Real.pi * 2 / 6 = Real.pi / 3 := by ring
  have hraw : uniformRawFromPublic 2 = Real.sqrt 3 := by
    unfold uniformRawFromPublic
    rw [harg, Real.sin_pi_div_three]
    ring
  have h3 : (1 : ℝ) < Real.sqrt 3 := by
    have := Real.sqrt_lt_sqrt (by norm_num : (0:ℝ) ≤ 1) (by norm_num : (1:ℝ) < 3)
    rwa [Real.sqrt_one] at this
  refine ⟨by norm_num, ?_⟩
  unfold mkUniform mkAntitheticScalar
  rw [if_neg (by norm_num), if_pos]
  rw [hraw]
  intro hcon
  linarith [hcon.2]

/-- Witness for C9: applied to the concrete swapped construction
`Uniform(correlation = 0, low = 1, high = 0)`, which succeeds and stores
`low = 0 < 1 = high`. -/
theorem C9_witness :
    mkUniform 0 1 0 natStream idPerm = .ok demoUniformSwapped ∧
    (demoUniformSwapped.low = min (1 : ℝ) 0 ∧
      demoUniformSwapped.high = max (1 : ℝ) 0 ∧
      demoUniformSwapped.low < demoUniformSwapped.high) := by
  have h0 : uniformRawFromPublic 0 = 0 := by simp [uniformRawFromPublic]
  have hu : mkUniform 0 1 0 natStream idPerm = .ok demoUniformSwapped := by
    unfold mkUniform
    rw [h0]
    unfold mkAntitheticScalar
    rw [if_neg (by norm_num), if_neg (by norm_num)]
    simp only [Except.ok.injEq]
    unfold demoUniformSwapped demoGen
    congr 1 <;> norm_num
  exact ⟨hu, (C9_uniform_construction 0 1 0 natStream idPerm).1 demoUniformSwapped hu⟩

/-- A vector is constant when any two of its entries are equal (a length-1
vector is trivially constant). -/
def allEqual (x : List ℝ) : Prop := ∀ a ∈ x, ∀ b ∈ x, a = b

lemma centeredSq_nonneg (x : List ℝ) : 0 ≤ centeredSq x := by
  unfold centeredSq
  apply List.sum_nonneg
  intro a ha
  simp only [List.mem_map] at ha
  obtain ⟨v, -, rfl⟩ := ha
  positivity

lemma sum_sq_dev_eq_zero (x : List ℝ) (c : ℝ) :
    (x.map fun v => (v - c) ^ 2).sum = 0 ↔ ∀ v ∈ x, v = c := by
  induction x with
  | nil => simp
  | cons a t ih =>
      simp only [List.map_cons, List.sum_cons, List.mem_cons]
      constructor
      · intro h
        have h1 : (0 : ℝ) ≤ (a - c) ^ 2 := sq_nonneg _
        have h2 : (0 : ℝ) ≤ (t.map fun v => (v - c) ^ 2).sum := by
          apply List.sum_nonneg
          intro b hb
          simp only [List.mem_map] at hb
          obtain ⟨v, -, rfl⟩ := hb
          positivity
        have ha : a = c := by
          have hsq : (a - c) ^ 2 = 0 := by linarith
          have := pow_eq_zero_iff two_ne_zero |>.mp hsq
          linarith [this]
        intro v hv
        rcases hv with rfl | hv
        · exact ha
        · exact (ih.mp (by linarith)) v hv
      · intro h
        have ha : a = c := h a (Or.inl rfl)
        have ht : (t.map fun v => (v - c) ^ 2).sum = 0 :=
          ih.mpr fun v hv => h v (Or.inr hv)
        rw [ha, ht, sub_self]
        ring

lemma vecMean_const {x : List ℝ} {a : ℝ} (hne : x ≠ []) (h : ∀ v ∈ x, v = a) :
    vecMean x = a := by
  unfold vecMean
  rw [List.sum_eq_card_nsmul x a h, nsmul_eq_mul]
  have hlen : (x.length : ℝ) ≠ 0 := by
    simpa using fun h' => hne (List.length_eq_zero.mp h')
  field_simp

lemma centeredSq_eq_zero_iff {x : List ℝ} (hne : x ≠ []) :
    centeredSq x = 0 ↔ allEqual x := by
  unfold centeredSq allEqual
  rw [sum_sq_dev_eq_zero]
  constructor
  · intro h a ha b hb
    rw [h a ha, h b hb]
  · intro h v hv
    obtain ⟨a, t, rfl⟩ := List.exists_cons_of_ne_nil hne
    have hva : ∀ w ∈ a :: t, w = a := fun w hw => h w hw a (List.mem_cons_self a t)
    rw [vecMean_const hne hva, hva v hv]

/-- Claim C10: on equal-length (nonempty) inputs the standalone
`correlation(x_data, y_data)` utility performs its final division with no
guard on the denominator (the returned value is literally the centered
product sum divided by `sqrt(s2x*s2y)`); that denominator is zero exactly
when one of the flattened vectors is constant (in particular for length-1
inputs), and under the precondition that both vectors contain at least two
distinct values the denominator is strictly positive, so the result is a
well-defined real number. -/
theorem C10_correlation_denominator (x y : List ℝ)
    (hlen : x.length = y.length) (hne : 0 < x.length) :
    (correlationFn x y
      = .ok ((List.zipWith (fun a b => (a - vecMean x) * (b - vecMean y)) x y).sum
             / corrDenominator x y)) ∧
    (corrDenominator x y = 0 ↔ (allEqual x ∨ allEqual y)) ∧
    ((¬ allEqual x ∧ ¬ allEqual y) → 0 < corrDenominator x y) := by
  have hxne : x ≠ [] := by
    intro h
    rw [h] at hne
    exact absurd hne (by simp)
  have hyne : y ≠ [] := by
    intro h
    rw [h, List.length_nil] at hlen
    rw [hlen] at hne
    exact absurd hne (by simp)
  have hx0 := centeredSq_nonneg x
  have hy0 := centeredSq_nonneg y
  refine ⟨?_, ?_, ?_⟩
  · unfold correlationFn
    rw [if_neg (not_not_intro hlen)]
  · unfold corrDenominator
    rw [Real.sqrt_eq_zero']
    constructor
    · intro hle
      have hz : centeredSq x * centeredSq y = 0 :=
        le_antisymm hle (mul_nonneg hx0 hy0)
      rcases mul_eq_zero.mp hz with h | h
      · exact Or.inl ((centeredSq_eq_zero_iff hxne).mp h)
      · exact Or.inr ((centeredSq_eq_zero_iff hyne).mp h)
    · intro h
      rcases h with h | h
      · rw [(centeredSq_eq_zero_iff hxne).mpr h, zero_mul]
      · rw [(centeredSq_eq_zero_iff hyne).mpr h, mul_zero]
  · rintro ⟨hx, hy⟩
    unfold corrDenominator
    rw [Real.sqrt_pos]
    apply mul_pos
    · exact lt_of_le_of_ne hx0
        fun h => hx ((centeredSq_eq_zero_iff hxne).mp h.symm)
    · exact lt_of_le_of_ne hy0
        fun h => hy ((centeredSq_eq_zero_iff hyne).mp h.symm)

/-- Witness for C10: the characterization applied to the concrete inputs
`x = [1, 1]` (constant) and `y = [2, 3]` (two distinct values). -/
theorem C10_witness :
    ([(1 : ℝ), 1].length = [(2 : ℝ), 3].length) ∧
    (0 < [(1 : ℝ), 1].length) ∧
    ((correlationFn [(1 : ℝ), 1] [(2 : ℝ), 3]
        = .ok ((List.zipWith
            (fun a b => (a - vecMean [(1 : ℝ), 1]) * (b - vecMean [(2 : ℝ), 3]))
            [(1 : ℝ), 1] [(2 : ℝ), 3]).sum
             / corrDenominator [(1 : ℝ), 1] [(2 : ℝ), 3])) ∧
      (corrDenominator [(1 : ℝ), 1] [(2 : ℝ), 3] = 0 ↔
        (allEqual [(1 : ℝ), 1] ∨ allEqual [(2 : ℝ), 3])) ∧
      ((¬ allEqual [(1 : ℝ), 1] ∧ ¬ allEqual [(2 : ℝ), 3]) →
        0 < corrDenominator [(1 : ℝ), 1] [(2 : ℝ), 3])) :=
  ⟨rfl, by norm_num,
   C10_correlation_denominator [(1 : ℝ), 1] [(2 : ℝ), 3] rfl (by norm_num)⟩

/-! ### Closed forms for sequential draws -/

lemma pairRows_succ (rho : ℝ) (f : ℕ → ℝ) (p k : ℕ) :
    pairRows rho f p (k + 1)
      = (f p, mix rho (f p) (f (p + 1))) :: pairRows rho f (p + 2) k := by
  unfold pairRows
  rw [List.range_succ_eq_map]
  simp only [List.map_cons, Nat.mul_zero, Nat.add_zero, List.map_map]
  congr 1
  apply List.map_congr_left
  intro i _
  simp only [Function.comp_apply]
  have e1 : p + 2 * (i + 1) = p + 2 + 2 * i := by ring
  rw [e1]

lemma zipArrange_cons (r : ℝ × ℝ) (rows : List (ℝ × ℝ)) :
    zipArrange (r :: rows) = r.1 :: r.2 :: zipArrange rows := by
  simp [zipArrange]

lemma zipArrange_length (rows : List (ℝ × ℝ)) :
    (zipArrange rows).length = 2 * rows.length := by
  induction rows with
  | nil => rfl
  | cons r t ih =>
      rw [zipArrange_cons]
      simp only [List.length_cons, ih]
      omega

lemma concatArrange_length (rows : List (ℝ × ℝ)) :
    (concatArrange rows).length = 2 * rows.length := by
  simp only [concatArrange, List.length_append, List.length_map]
  omega

lemma pairRows_length (rho : ℝ) (f : ℕ → ℝ) (p k : ℕ) :
    (pairRows rho f p k).length = k := by
  simp [pairRows]

/-- The list of values that `N` sequential `get_next_raw_normal` calls return
when started from a state with no buffered value: alternating pair members
`x_i, z_i` with, for odd `N`, a trailing unpaired first member. -/
def freshValues (rho : ℝ) (f : ℕ → ℝ) (p N : ℕ) : List ℝ :=
  zipArrange (pairRows rho f p (N / 2))
    ++ (if N % 2 = 1 then [f (p + 2 * (N / 2))] else [])

/-- The state left behind by `N` sequential `get_next_raw_normal` calls when
started from a state with no buffered value. -/
def freshFinal (s : GenState) (N : ℕ) : GenState :=
  if N = 0 then s
  else
    { s with
      pos := s.pos + 2 * (N / 2) + 2 * (N % 2),
      have_flag := decide (N % 2 = 1),
      hold := mix s.raw_correlation
        (s.stream (s.pos + 2 * (N / 2) + 2 * (N % 2) - 2))
        (s.stream (s.pos + 2 * (N / 2) + 2 * (N % 2) - 1)) }

lemma freshValues_two_step (rho : ℝ) (f : ℕ → ℝ) (p n : ℕ) :
    freshValues rho f p (n + 2)
      = f p :: mix rho (f p) (f (p + 1)) :: freshValues rho f (p + 2) n := by
  unfold freshValues
  have h2 : (n + 2) / 2 = n / 2 + 1 := by omega
  have h2' : (n + 2) % 2 = n % 2 := by omega
  rw [h2, h2', pairRows_succ, zipArrange_cons]
  simp only [List.cons_append]
  have e1 : p + 2 * (n / 2 + 1) = p + 2 + 2 * (n / 2) := by ring
  rw [e1]

lemma freshFinal_two_step (s : GenState) (n : ℕ) :
    freshFinal
      { s with
        pos := s.pos + 2,
        hold := mix s.raw_correlation (s.stream s.pos) (s.stream (s.pos + 1)),
        have_flag := false }
      n
      = freshFinal s (n + 2) := by
  unfold freshFinal
  rcases Nat.eq_zero_or_pos n with rfl | hn
  · rw [if_pos rfl, if_neg (by omega : ¬0 + 2 = 0)]
    simp only [GenState.mk.injEq]
    norm_num
  · rw [if_neg (by omega), if_neg (by omega)]
    have h2 : (n + 2) / 2 = n / 2 + 1 := by omega
    have h2' : (n + 2) % 2 = n % 2 := by omega
    rw [h2, h2']
    simp only [GenState.mk.injEq, true_and, and_true]
    constructor
    · omega
    · have i1 : s.pos + 2 + 2 * (n / 2) + 2 * (n % 2) - 2
          = s.pos + 2 * (n / 2 + 1) + 2 * (n % 2) - 2 := by omega
      have i2 : s.pos + 2 + 2 * (n / 2) + 2 * (n % 2) - 1
          = s.pos + 2 * (n / 2 + 1) + 2 * (n % 2) - 1 := by omega
      rw [i1, i2]

lemma nextN_of_fresh (N : ℕ) : ∀ s : GenState, s.have_flag = false →
    nextN N s = (freshValues s.raw_correlation s.stream s.pos N, freshFinal s N) := by
  induction N using Nat.strong_induction_on with
  | _ N ih =>
    match N with
    | 0 =>
        intro s h
        simp [nextN, freshValues, freshFinal, pairRows, zipArrange]
    | 1 =>
        intro s h
        simp only [nextN, getNextRawNormal, h, Bool.false_eq_true, if_false,
          ite_false]
        unfold freshValues freshFinal pairRows zipArrange
        norm_num
    | (n + 2) =>
        intro s h
        have hg : getNextRawNormal s
            = (s.stream s.pos,
               { s with hold := mix s.raw_correlation (s.stream s.pos) (s.stream (s.pos + 1)),
                        have_flag := true, pos := s.pos + 2 }) := by
          simp [getNextRawNormal, h]
        have hg2 : getNextRawNormal
            { s with hold := mix s.raw_correlation (s.stream s.pos) (s.stream (s.pos + 1)),
                     have_flag := true, pos := s.pos + 2 }
            = (mix s.raw_correlation (s.stream s.pos) (s.stream (s.pos + 1)),
               { s with hold := mix s.raw_correlation (s.stream s.pos) (s.stream (s.pos + 1)),
                        have_flag := false, pos := s.pos + 2 }) := by
          simp [getNextRawNormal]
        have hrec := ih n (by omega)
          { s with hold := mix s.raw_correlation (s.stream s.pos) (s.stream (s.pos + 1)),
                   have_flag := false, pos := s.pos + 2 } rfl
        simp only [nextN, hg, hg2, hrec]
        rw [freshValues_two_step, freshFinal_two_step]

lemma nextN_of_buffered (N : ℕ) (s : GenState) (h : s.have_flag = true) :
    nextN (N + 1) s
      = (s.hold :: freshValues s.raw_correlation s.stream s.pos N,
         freshFinal { s with have_flag := false } N) := by
  have h1 : getNextRawNormal s = (s.hold, { s with have_flag := false }) := by
    simp [getNextRawNormal, h]
  simp only [nextN, h1]
  rw [nextN_of_fresh N { s with have_flag := false } rfl]

lemma permStream_length (s : GenState) (k n : ℕ) :
    ((s.permStream k n).1).length = n := by
  have h := (s.permStream k n).2.length_eq
  simpa using h

/-- Claim C3 (amended): for every `N >= 2` and every recognized method the
sequence operation returns an ordered sequence (numpy array) of exactly `N`
values; for `N == 1` it instead early-returns the bare scalar produced by a
single `get_next_raw_normal()` call, not a length-1 sequence. -/
theorem C3_sequence_length (s : GenState) (N : ℕ) (method : String) (ms : Bool)
    (hm : method ∈ [zipKey, shuffleKey, concatKey]) (hN : 2 ≤ N) :
    ∃ vs s₂, getSequenceRawNormal s N method ms = .ok (.vector vs, s₂) ∧
      vs.length = N := by
  have hN0 : ¬N = 0 := by omega
  have hN1 : ¬N = 1 := by omega
  rcases List.mem_cons.mp hm with rfl | hm'
  · -- method = zipKey
    cases hb : s.have_flag
    all_goals
      simp only [getSequenceRawNormal, hm, hN0, hN1, hb, not_true_eq_false,
        Bool.false_eq_true, Bool.true_eq_false, if_false, if_true, ite_true,
        ite_false, List.mem_cons, eq_self_iff_true, true_or, or_true,
        not_false_eq_true, reduceIte]
    all_goals
      refine ⟨_, _, rfl, ?_⟩
    all_goals
      simp only [List.length_append, List.length_cons, List.length_nil,
        zipArrange_length, pairRows_length]
    all_goals
      split
    all_goals
      simp only [List.length_cons, List.length_nil]
    all_goals
      omega
  rcases List.mem_cons.mp hm' with rfl | hm''
  · -- method = shuffleKey
    cases hb : s.have_flag
    all_goals
      cases ms
    all_goals
      simp only [getSequenceRawNormal, hm, hN0, hN1, hb, not_true_eq_false,
        Bool.false_eq_true, Bool.true_eq_false, if_false, if_true, ite_true,
        ite_false, List.mem_cons, eq_self_iff_true, true_or, or_true,
        not_false_eq_true, reduceIte, shuffleKey, zipKey, concatKey,
        String.reduceEq]
    all_goals
      refine ⟨_, _, rfl, ?_⟩
    all_goals
      try simp only [List.length_append, List.length_map, List.length_cons,
        List.length_nil, permStream_length, concatArrange_length,
        pairRows_length, hb, Bool.false_eq_true, Bool.true_eq_false, reduceIte]
    all_goals
      try split
    all_goals
      try simp only [List.length_cons, List.length_nil]
    all_goals
      omega
  rcases List.mem_cons.mp hm'' with rfl | hm'''
  · -- method = concatKey
    cases hb : s.have_flag
    all_goals
      simp only [getSequenceRawNormal, hm, hN0, hN1, hb, not_true_eq_false,
        Bool.false_eq_true, Bool.true_eq_false, if_false, if_true, ite_true,
        ite_false, List.mem_cons, eq_self_iff_true, true_or, or_true,
        not_false_eq_true, reduceIte, shuffleKey, zipKey, concatKey,
        String.reduceEq]
    all_goals
      refine ⟨_, _, rfl, ?_⟩
    all_goals
      simp only [List.length_append, List.length_cons, List.length_nil,
        concatArrange_length, pairRows_length]
    all_goals
      split
    all_goals
      simp only [List.length_cons, List.length_nil]
    all_goals
      omega
  · cases hm'''

/-- Counterexample to Claim C3 as stated: at `N = 1` the operation does not
return a sequence of one float — it early-returns a bare scalar. -/
theorem C3_counterexample :
    (getSequenceRawNormal demoGen 1 zipKey true).map
      (fun pr => SeqReturn.isVector pr.1) = .ok false := by
  unfold getSequenceRawNormal
  rw [if_neg (by decide), if_neg (by decide), if_pos rfl]
  rfl

/-- Witness for C3: a sequence of length `2` requested with the `zip` method
on the concrete fresh state. -/
theorem C3_witness :
    (zipKey ∈ [zipKey, shuffleKey, concatKey]) ∧ 2 ≤ 2 ∧
    (∃ vs s₂, getSequenceRawNormal demoGen 2 zipKey true = .ok (.vector vs, s₂) ∧
      vs.length = 2) :=
  ⟨List.mem_cons_self zipKey _, le_refl 2,
   C3_sequence_length demoGen 2 zipKey true (List.mem_cons_self zipKey _) (le_refl 2)⟩

/-- Claim C4 (amended): for every starting state and every `N >= 1`,
`get_sequence_raw_normal(N, "zip")` returns, position by position, exactly
the values that `N` sequential `get_next_raw_normal()` calls would return
(for `N == 1` the single returned scalar is the one sequential value), and
leaves the generator in a state agreeing with the one those `N` sequential
calls would leave in every observable respect: same buffer flag, same stream
cursor, same correlation, same random sources, and — whenever the flag is set
— the same held value. (When the flag is clear the two held values may
differ: the batch path never writes `_AntitheticScalar__hold` unless it
buffers a back single, while the sequential path leaves the last delivered
pair member there; that value is unreadable until the flag is set again.) -/
theorem C4_zip_equals_sequential (s : GenState) (N : ℕ) (ms : Bool) (hN : 1 ≤ N) :
    ∃ r s₂, getSequenceRawNormal s N zipKey ms = .ok (r, s₂) ∧
      seqValues r = (nextN N s).1 ∧
      s₂.have_flag = (nextN N s).2.have_flag ∧
      s₂.pos = (nextN N s).2.pos ∧
      s₂.raw_correlation = (nextN N s).2.raw_correlation ∧
      s₂.stream = (nextN N s).2.stream ∧
      s₂.permStream = (nextN N s).2.permStream ∧
      s₂.permPos = (nextN N s).2.permPos ∧
      s₂.strayHave = (nextN N s).2.strayHave ∧
      (s₂.have_flag = true → s₂.hold = (nextN N s).2.hold) := by
  rcases Nat.lt_or_ge N 2 with h2 | h2
  · -- N = 1: the early return delegates to get_next_raw_normal
    have hN1 : N = 1 := by omega
    subst hN1
    have hseq : getSequenceRawNormal s 1 zipKey ms
        = .ok (.scalar (getNextRawNormal s).1, (getNextRawNormal s).2) := by
      unfold getSequenceRawNormal
      rw [if_neg (by decide), if_neg (by decide), if_pos rfl]
    exact ⟨_, _, hseq, rfl, rfl, rfl, rfl, rfl, rfl, rfl, rfl, fun _ => rfl⟩
  · have hN0 : ¬N = 0 := by omega
    have hN1 : ¬N = 1 := by omega
    cases hb : s.have_flag
    · -- no buffered value: N fresh sequential calls
      rw [nextN_of_fresh N s hb]
      simp only [getSequenceRawNormal, hN0, hN1, hb, Bool.false_eq_true,
        not_true_eq_false, not_false_eq_true, if_false, if_true, ite_true,
        ite_false, List.mem_cons, eq_self_iff_true, true_or, or_true,
        reduceIte, Nat.sub_zero, freshValues, freshFinal, List.nil_append,
        List.append_nil]
      rcases Nat.mod_two_eq_zero_or_one N with hpar | hpar
      · simp only [hpar, reduceIte, Nat.sub_zero, decide_eq_true_eq,
          decide_False, List.append_nil]
        refine ⟨_, _, rfl, rfl, ?_, ?_, rfl, rfl, rfl, rfl, rfl, ?_⟩
        · simp
        · dsimp only
          split
          all_goals omega
        · intro hcontra
          simp at hcontra
      · simp only [hpar, reduceIte, Nat.sub_zero, decide_eq_true_eq]
        have hdiv : (N - 1) / 2 = N / 2 := by omega
        have hidx : N - 1 = 2 * (N / 2) := by omega
        rw [hdiv, hidx]
        refine ⟨_, _, rfl, rfl, ?_, ?_, rfl, rfl, rfl, rfl, rfl, ?_⟩
        · simp
        · dsimp only
        · intro _
          have i1 : s.pos + 2 * (N / 2) + 2 * 1 - 2 = s.pos + 2 * (N / 2) := by
            omega
          have i2 : s.pos + 2 * (N / 2) + 2 * 1 - 1 = s.pos + 2 * (N / 2) + 1 := by
            omega
          rw [i1, i2]
    · -- a buffered front single followed by N-1 fresh sequential calls
      obtain ⟨n, rfl⟩ : ∃ n, N = n + 1 := ⟨N - 1, by omega⟩
      have hn : 1 ≤ n := by omega
      have hn0 : ¬n = 0 := by omega
      rw [nextN_of_buffered n s hb]
      simp only [getSequenceRawNormal, hN0, hN1, hb, not_true_eq_false,
        not_false_eq_true, if_false, if_true, ite_true, ite_false,
        List.mem_cons, eq_self_iff_true, true_or, or_true, reduceIte,
        Nat.add_sub_cancel, freshValues, freshFinal, hn0, List.nil_append,
        List.append_nil, List.singleton_append]
      rcases Nat.mod_two_eq_zero_or_one n with hpar | hpar
      · simp only [hpar, reduceIte, Nat.sub_zero, decide_eq_true_eq,
          decide_False, List.append_nil]
        refine ⟨_, _, rfl, rfl, ?_, ?_, rfl, rfl, rfl, rfl, rfl, ?_⟩
        · simp
        · dsimp only
          split
          all_goals omega
        · intro hcontra
          simp at hcontra
      · simp only [hpar, reduceIte, Nat.sub_zero, decide_eq_true_eq]
        have hdiv : (n - 1) / 2 = n / 2 := by omega
        have hidx : n - 1 = 2 * (n / 2) := by omega
        rw [hdiv, hidx]
        refine ⟨_, _, rfl, rfl, ?_, ?_, rfl, rfl, rfl, rfl, rfl, ?_⟩
        · simp
        · dsimp only
        · intro _
          have i1 : s.pos + 2 * (n / 2) + 2 * 1 - 2 = s.pos + 2 * (n / 2) := by
            omega
          have i2 : s.pos + 2 * (n / 2) + 2 * 1 - 1 = s.pos + 2 * (n / 2) + 1 := by
            omega
          rw [i1, i2]

/-- Counterexample to Claim C4 as stated: the held value is not always equal.
Starting from the fresh state `demoGen` (flag clear, held value `0`) with
`N = 2`, the batch `zip` call leaves the held value `0` untouched, while two
sequential `get_next_raw_normal()` calls leave the held value `1` (the second
member of the delivered pair); the flags agree (both clear), so the
discrepancy is invisible to any later draw. -/
theorem C4_counterexample :
    (getSequenceRawNormal demoGen 2 zipKey true).map (fun pr => pr.2.hold)
      = .ok 0 ∧
    (nextN 2 demoGen).2.hold = 1 ∧ (0 : ℝ) ≠ 1 := by
  refine ⟨rfl, ?_, by norm_num⟩
  show mix 0 (natStream 0) (natStream 1) = 1
  simp [mix, natStream]

/-- Witness for C4: the amended equivalence applied to the concrete fresh
state `demoGen` with `N = 2`. -/
theorem C4_witness :
    1 ≤ 2 ∧
    (∃ r s₂, getSequenceRawNormal demoGen 2 zipKey true = .ok (r, s₂) ∧
      seqValues r = (nextN 2 demoGen).1 ∧
      s₂.have_flag = (nextN 2 demoGen).2.have_flag ∧
      s₂.pos = (nextN 2 demoGen).2.pos ∧
      s₂.raw_correlation = (nextN 2 demoGen).2.raw_correlation ∧
      s₂.stream = (nextN 2 demoGen).2.stream ∧
      s₂.permStream = (nextN 2 demoGen).2.permStream ∧
      s₂.permPos = (nextN 2 demoGen).2.permPos ∧
      s₂.strayHave = (nextN 2 demoGen).2.strayHave ∧
      (s₂.have_flag = true → s₂.hold = (nextN 2 demoGen).2.hold)) :=
  ⟨by omega, C4_zip_equals_sequential demoGen 2 true (by omega)⟩

end Antithetic
